import Mathlib

/-!
Verification of the ><> (fish) interpreter.

The development shallowly embeds the interpreter sources:
  * `fish_classes.py` — `FishCode` (the codebox), `FishStack` (the stack of
    stacks), the `FishError` / `FishEndExecution` signals;
  * `fish_interpreter.py` — the `Fish` engine (dispatch, motion, run loop).

Modelling conventions:
  * Python numbers (ints and floats) are modelled as exact rationals `ℚ`.
    The `push` normalisation `v if v%1 else int(v)` only changes the Python
    runtime type of an integral float, never its numeric value, so it is the
    identity on `ℚ`.
  * Characters are modelled by their code points (`Int`), matching the code's
    systematic use of `ord`/`chr`.
  * Python's `a % b` (sign follows the divisor) is `qmod a b = a - b*⌊a/b⌋`.
  * Python's `int(x)` truncation toward zero is `pyTrunc`; `round(x)`
    (round-half-to-even) is `pyRound`.
  * Exceptions become `Except`/tagged outcomes: `FishError` and the other
    aborting exceptions are `ErrKind`; `FishEndExecution` is the `halt`
    outcome; returning normally is `next`/`ok`.
  * `randint` in `m_random` is modelled by an explicit direction oracle
    passed to each cycle.
-/

set_option allowUnsafeReducibility true

attribute [local semireducible] Rat.add Rat.mul Rat.div Rat.sub Rat.neg Rat.inv

/-- Python `a % b` for `b ≠ 0`: the remainder whose sign follows the divisor,
`a - b * floor(a / b)`, valid for ints and floats alike. -/
def qmod (a b : ℚ) : ℚ := a - b * (⌊a / b⌋ : ℚ)

/-- Python `int(x)` on a real number: truncation toward zero. -/
def pyTrunc (q : ℚ) : Int := if 0 ≤ q then ⌊q⌋ else ⌈q⌉

/-- Python `round(x)` on a real number: round half to even. -/
def pyRound (q : ℚ) : Int :=
  let f := ⌊q⌋
  let r := q - (f : ℚ)
  if r < 1/2 then f
  else if 1/2 < r then f + 1
  else if f % 2 = 0 then f else f + 1

/-- The four headings of the instruction pointer (`Fish.DIRECTIONS`). -/
inductive Dir where
  | right
  | left
  | down
  | up
deriving DecidableEq

/-- Mirror table `Fish.R_FORWARD` (the `/` mirror). -/
def rForward : Dir → Dir
  | .right => .up
  | .left => .down
  | .down => .left
  | .up => .right

/-- Mirror table `Fish.R_BACKWARD` (the `\` mirror). -/
def rBackward : Dir → Dir
  | .right => .down
  | .left => .up
  | .down => .right
  | .up => .left

/-- Mirror table `Fish.R_HORIZONTAL` (the `_` mirror). -/
def rHorizontal : Dir → Dir
  | .right => .right
  | .left => .left
  | .down => .up
  | .up => .down

/-- Mirror table `Fish.R_VERTICAL` (the `|` mirror). -/
def rVertical : Dir → Dir
  | .right => .left
  | .left => .right
  | .down => .down
  | .up => .up

/-- Mirror table `Fish.R_CROSS` (the `#` mirror). -/
def rCross : Dir → Dir
  | .right => .left
  | .left => .right
  | .down => .up
  | .up => .down

instance {ε α : Type} [DecidableEq ε] [DecidableEq α] : DecidableEq (Except ε α) :=
  fun a b =>
    match a, b with
    | .error e, .error f =>
      if h : e = f then .isTrue (by rw [h]) else .isFalse (by simp [h])
    | .ok x, .ok y =>
      if h : x = y then .isTrue (by rw [h]) else .isFalse (by simp [h])
    | .error _, .ok _ => .isFalse (by simp)
    | .ok _, .error _ => .isFalse (by simp)

/-- Aborting exceptions of a run.  `insufficientStack`, `divByZero` and
`invalidInstr` are the `FishError` cases raised by `FishStack.pop`,
`Fish.arithmetic` and `Fish.next_cycle`; `typeErr` stands for the Python
`TypeError` that a non-integer slice count in `FishStack.pop` would raise. -/
inductive ErrKind where
  | insufficientStack
  | divByZero
  | invalidInstr
  | typeErr
deriving DecidableEq

/-- Codebox (`FishCode` in `fish_classes.py`): a sparse grid of cell values
keyed by `(col, row)` with `defaultdict(int)` semantics, together with the
bounding box of every cell ever written and the `ROUND_VALUES` flag. The
`defaultdict` is modelled as an association list read through `lookupCell`
(later writes shadow earlier ones, absent keys read as 0). -/
structure FishCode where
  cells : List ((Int × Int) × Int)
  min_col : Int
  max_col : Int
  min_row : Int
  max_row : Int
  round_values : Bool
deriving DecidableEq

/-- Reading the `defaultdict`: the most recent binding of the key, or 0. -/
def lookupCell : List ((Int × Int) × Int) → (Int × Int) → Int
  | [], _ => 0
  | (q, v) :: rest, p => if p = q then v else lookupCell rest p

/-- `FishCode.wrap`: reduce a cell value modulo 65536 before it is used as a
character. -/
def wrapChar (v : Int) : Int := v % 65536

/-- `FishCode.parse_value` on a number: round or truncate to an integer
according to the `ROUND_VALUES` flag.  (The single-character branch of the
Python function is performed by the callers here, which already traffic in
code points.) -/
def FishCode.parse_value (cb : FishCode) (q : ℚ) : Int :=
  if cb.round_values then pyRound q else pyTrunc q

/-- `FishCode.parse_coord`: parse both components of a position. -/
def FishCode.parse_coord (cb : FishCode) (p : ℚ × ℚ) : Int × Int :=
  (cb.parse_value p.1, cb.parse_value p.2)

/-- `FishCode.bounding_box_contains`. -/
def FishCode.bounding_box_contains (cb : FishCode) (p : ℚ × ℚ) : Bool :=
  let q := cb.parse_coord p
  decide (cb.min_col ≤ q.1) && decide (q.1 ≤ cb.max_col) &&
    decide (cb.min_row ≤ q.2) && decide (q.2 ≤ cb.max_row)

/-- `FishCode.__getitem__`: the stored value at a parsed position, 0 when the
cell was never written. -/
def FishCode.getItem (cb : FishCode) (p : ℚ × ℚ) : Int :=
  lookupCell cb.cells (cb.parse_coord p)

/-- `FishCode.get_char`: the cell value wrapped modulo 65536, i.e. the code
point of the character `chr(wrap(code[p]))` the interpreter dispatches on. -/
def FishCode.get_char (cb : FishCode) (p : ℚ × ℚ) : Int :=
  wrapChar (cb.getItem p)

/-- `FishCode.parse_char` applied to a popped value: `chr(wrap(parse_value(n)))`
as a code point (used by the `o` output instruction). -/
def FishCode.parse_char (cb : FishCode) (q : ℚ) : Int :=
  wrapChar (cb.parse_value q)

/-- `FishCode.__setitem__` (`fish_classes.py` lines 76–82): parse the
coordinates and the value, store the value, and extend the bounding box
bounds that the new cell lies outside of. -/
def FishCode.setItem (cb : FishCode) (p : ℚ × ℚ) (v : ℚ) : FishCode :=
  let c := cb.parse_value p.1
  let r := cb.parse_value p.2
  { cb with
    cells := ((c, r), cb.parse_value v) :: cb.cells
    min_col := if c < cb.min_col then c else cb.min_col
    max_col := if c < cb.min_col then cb.max_col
               else if c > cb.max_col then c else cb.max_col
    min_row := if r < cb.min_row then r else cb.min_row
    max_row := if r < cb.min_row then cb.max_row
               else if r > cb.max_row then r else cb.max_row }

/-- Python `src.split('\n')` on the character list of the source text. -/
def splitLines : List Char → List (List Char)
  | [] => [[]]
  | c :: rest =>
    let r := splitLines rest
    if c = '\n' then [] :: r
    else (c :: r.headD []) :: r.tail

/-- One row of `FishCode.__init__`'s loading loop: write `ord(char)` at
`(c, r)` for every character, keeping `max_col` up to date. -/
def loadRow (r : Int) (line : List Char) (cb : FishCode) : FishCode :=
  line.enum.foldl
    (fun acc cc =>
      { acc with
        max_col := if (cc.1 : Int) > acc.max_col then (cc.1 : Int) else acc.max_col
        cells := (((cc.1 : Int), r), (cc.2.toNat : Int)) :: acc.cells })
    cb

/-- `FishCode.__init__`: split the source on newlines and load every row,
keeping `max_row` up to date; the box starts at `(0, 0)`. -/
def FishCode.load (src : String) (rv : Bool) : FishCode :=
  (splitLines src.toList).enum.foldl
    (fun acc rl =>
      loadRow (rl.1 : Int) rl.2
        { acc with
          max_row := if (rl.1 : Int) > acc.max_row then (rl.1 : Int) else acc.max_row })
    { cells := [], min_col := 0, max_col := 0, min_row := 0, max_row := 0,
      round_values := rv }

/-- Stack of stacks (`FishStack` in `fish_classes.py`).  As in the Python
list, the ACTIVE frame is the LAST element of `stack`; inside a frame the top
of the stack is the last element. -/
structure FishStack where
  stack : List (List ℚ)
deriving DecidableEq

/-- The active (topmost) frame, Python's `self.stack[-1]`. -/
def FishStack.active (st : FishStack) : List ℚ := st.stack.getLastD []

/-- Replace the active frame (the mutation `self.stack[-1] = f`). -/
def FishStack.setActive (st : FishStack) (f : List ℚ) : FishStack :=
  ⟨st.stack.dropLast ++ [f]⟩

/-- `FishStack.length`: the number of values on the active frame. -/
def FishStack.length (st : FishStack) : Nat := st.active.length

/-- `FishStack.stack_count`: the number of frames. -/
def FishStack.stack_count (st : FishStack) : Nat := st.stack.length

/-- `FishStack.push`: append values to the active frame.  The Python
normalisation of integral floats to ints does not change numeric values, so
on `ℚ` it is the identity. -/
def FishStack.push (st : FishStack) (vals : List ℚ) : FishStack :=
  st.setActive (st.active ++ vals)

/-- `FishStack.pop` (`fish_classes.py` lines 130–136).  `n = None` means
"all remaining"; otherwise the count is clamped by `max(0, n)`.  A count
exceeding the active frame's length raises the insufficient-stack
`FishError`.  Otherwise the last `k` values are returned in original order
and the slice assignment `stack[-1][-k:] = []` removes them — note that for
`k = 0` that Python slice is `stack[-1][0:] = []`, which clears the WHOLE
frame while the `if n` guard still returns the empty tuple.  A non-integer
count would raise a Python `TypeError` at the slice (`typeErr`). -/
def popCount (st : FishStack) (n : Option ℚ) : ℚ :=
  match n with
  | none => (st.length : ℚ)
  | some m => max 0 m

def FishStack.pop (st : FishStack) (n : Option ℚ) : Except ErrKind (List ℚ × FishStack) :=
  if (st.length : ℚ) < popCount st n then .error .insufficientStack
  else if (popCount st n).den ≠ 1 then .error .typeErr
  else if popCount st n = 0 then .ok ([], st.setActive [])
  else .ok (st.active.drop (st.active.length - (popCount st n).num.toNat),
            st.setActive (st.active.take (st.active.length - (popCount st n).num.toNat)))

/-- `FishStack.add_stack`: append a brand-new empty frame, then push the
prefill values onto it. -/
def FishStack.add_stack (st : FishStack) (fill : List ℚ) : FishStack :=
  (FishStack.mk (st.stack ++ [[]])).push fill

/-- `FishStack.del_stack`: pop all values off the active frame, then remove
the frame itself — unless it is the only one, which stays (emptied). -/
def FishStack.del_stack (st : FishStack) : Except ErrKind (List ℚ × FishStack) :=
  match st.pop none with
  | .error e => .error e
  | .ok (popped, st') =>
    if st'.stack_count > 1 then .ok (popped, ⟨st'.stack.dropLast⟩)
    else .ok (popped, st')

/-- One item of the accumulated output string: the `o` instruction appends a
character (given by its code point), the `n` instruction the decimal
rendering of a number.  Keeping the two tagged preserves exactly the
information `fish_out` accumulates. -/
inductive OutEvent where
  | ch (c : Int)
  | num (q : ℚ)
deriving DecidableEq

/-- The whole mutable state a `Fish` object carries during a run, as set up
by `Fish.initialize`.  `fish_in` is stored reversed, exactly as in the
Python code, and read from its end. -/
structure FishState where
  code : FishCode
  stack : FishStack
  register : List (Option ℚ)
  fish_in : List ℚ
  fish_out : List OutEvent
  pos : ℚ × ℚ
  direction : Dir
  parse_mode : Option Int
  is_running : Bool
  skip : Bool
deriving DecidableEq

/-- `self.stack.pop(n)` lifted to the interpreter state. -/
def doPop (s : FishState) (n : Option ℚ) : Except ErrKind (List ℚ × FishState) :=
  match s.stack.pop n with
  | .error e => .error e
  | .ok (vs, st) => .ok (vs, { s with stack := st })

/-- `self.stack.push(...)` lifted to the interpreter state. -/
def doPush (s : FishState) (vs : List ℚ) : FishState :=
  { s with stack := s.stack.push vs }

/-- `Fish.VALID_CHARS` as code points. -/
def validChars : List Int :=
  [62, 60, 94, 118, 47, 92, 124, 95, 35, 120, 33, 63, 46, 43, 45, 42, 44, 37,
   61, 41, 40, 39, 34, 58, 126, 36, 64, 125, 123, 114, 108, 91, 93, 111, 110,
   105, 38, 103, 112, 59, 32, 0,
   48, 49, 50, 51, 52, 53, 54, 55, 56, 57, 97, 98, 99, 100, 101, 102]

/-- `int(char, base=16)` for the hex-literal instructions `0`–`9`, `a`–`f`. -/
def hexVal (cmd : Int) : Int := if cmd ≤ 57 then cmd - 48 else cmd - 87

/-- Every command handler except the random-heading `x`, dispatched on the
code point of the instruction character (the `Fish.COMMANDS` table).  A
branch returns the updated state, or the aborting exception it raises. -/
def execDet (cmd : Int) (s : FishState) : Except ErrKind FishState :=
  if cmd = 62 then .ok { s with direction := .right }
  else if cmd = 60 then .ok { s with direction := .left }
  else if cmd = 118 then .ok { s with direction := .down }
  else if cmd = 94 then .ok { s with direction := .up }
  else if cmd = 47 then .ok { s with direction := rForward s.direction }
  else if cmd = 92 then .ok { s with direction := rBackward s.direction }
  else if cmd = 95 then .ok { s with direction := rHorizontal s.direction }
  else if cmd = 124 then .ok { s with direction := rVertical s.direction }
  else if cmd = 35 then .ok { s with direction := rCross s.direction }
  else if cmd = 33 then .ok { s with skip := true }
  else if cmd = 63 then
    match doPop s (some 1) with
    | .error e => .error e
    | .ok (vs, s') => .ok { s' with skip := decide (vs.headD 0 = 0) }
  else if cmd = 46 then
    match doPop s (some 2) with
    | .error e => .error e
    | .ok (vs, s') => .ok { s' with pos := (vs.getD 0 0, vs.getD 1 0) }
  else if (48 ≤ cmd ∧ cmd ≤ 57) ∨ (97 ≤ cmd ∧ cmd ≤ 102) then
    .ok (doPush s [(hexVal cmd : ℚ)])
  else if cmd = 43 ∨ cmd = 45 ∨ cmd = 42 then
    match doPop s (some 2) with
    | .error e => .error e
    | .ok (vs, s') =>
      let x := vs.getD 0 0
      let y := vs.getD 1 0
      .ok (doPush s' [if cmd = 43 then x + y else if cmd = 45 then x - y else x * y])
  else if cmd = 44 then
    match doPop s (some 2) with
    | .error e => .error e
    | .ok (vs, s') =>
      if vs.getD 1 0 = 0 then .error .divByZero
      else .ok (doPush s' [vs.getD 0 0 / vs.getD 1 0])
  else if cmd = 37 then
    match doPop s (some 2) with
    | .error e => .error e
    | .ok (vs, s') =>
      if vs.getD 1 0 = 0 then .error .divByZero
      else .ok (doPush s' [qmod (vs.getD 0 0) (vs.getD 1 0)])
  else if cmd = 61 then
    match doPop s (some 2) with
    | .error e => .error e
    | .ok (vs, s') =>
      .ok (doPush s' [if vs.getD 0 0 = vs.getD 1 0 then (1 : ℚ) else 0])
  else if cmd = 41 then
    match doPop s (some 2) with
    | .error e => .error e
    | .ok (vs, s') =>
      .ok (doPush s' [if vs.getD 0 0 > vs.getD 1 0 then (1 : ℚ) else 0])
  else if cmd = 40 then
    match doPop s (some 2) with
    | .error e => .error e
    | .ok (vs, s') =>
      .ok (doPush s' [if vs.getD 0 0 < vs.getD 1 0 then (1 : ℚ) else 0])
  else if cmd = 39 then
    .ok { s with parse_mode := if s.parse_mode = none then some 39 else none }
  else if cmd = 34 then
    .ok { s with parse_mode := if s.parse_mode = none then some 34 else none }
  else if cmd = 58 then
    match doPop s (some 1) with
    | .error e => .error e
    | .ok (vs, s') => .ok (doPush s' (vs ++ vs))
  else if cmd = 126 then
    match doPop s (some 1) with
    | .error e => .error e
    | .ok (_, s') => .ok s'
  else if cmd = 36 then
    match doPop s (some 2) with
    | .error e => .error e
    | .ok (vs, s') => .ok (doPush s' vs.reverse)
  else if cmd = 64 then
    match doPop s (some 3) with
    | .error e => .error e
    | .ok (vs, s') =>
      .ok (doPush s' [vs.getD 2 0, vs.getD 0 0, vs.getD 1 0])
  else if cmd = 125 then
    if s.stack.length > 1 then
      match doPop s none with
      | .error e => .error e
      | .ok (vs, s') => .ok (doPush s' (vs.getLastD 0 :: vs.dropLast))
    else .ok s
  else if cmd = 123 then
    if s.stack.length > 1 then
      match doPop s none with
      | .error e => .error e
      | .ok (vs, s') => .ok (doPush s' (vs.tail ++ [vs.headD 0]))
    else .ok s
  else if cmd = 114 then
    match doPop s none with
    | .error e => .error e
    | .ok (vs, s') => .ok (doPush s' vs.reverse)
  else if cmd = 108 then
    .ok (doPush s [(s.stack.length : ℚ)])
  else if cmd = 91 then
    match doPop s (some 1) with
    | .error e => .error e
    | .ok (cnt, s1) =>
      match doPop s1 (some (cnt.headD 0)) with
      | .error e => .error e
      | .ok (vs, s2) =>
        .ok { s2 with stack := s2.stack.add_stack vs,
                      register := s2.register ++ [none] }
  else if cmd = 93 then
    if s.stack.stack_count > 1 then
      match s.stack.del_stack with
      | .error e => .error e
      | .ok (vs, st) =>
        .ok { s with stack := st.push vs, register := s.register.dropLast }
    else
      match s.stack.del_stack with
      | .error e => .error e
      | .ok (_, st) => .ok { s with stack := st, register := [none] }
  else if cmd = 111 then
    match doPop s (some 1) with
    | .error e => .error e
    | .ok (vs, s') =>
      .ok { s' with fish_out := s'.fish_out ++ [.ch (s'.code.parse_char (vs.headD 0))] }
  else if cmd = 110 then
    match doPop s (some 1) with
    | .error e => .error e
    | .ok (vs, s') =>
      .ok { s' with fish_out := s'.fish_out ++ [.num (vs.headD 0)] }
  else if cmd = 105 then
    let v := if s.fish_in = [] then (-1 : ℚ) else s.fish_in.getLastD 0
    .ok { s with stack := s.stack.push [v], fish_in := s.fish_in.dropLast }
  else if cmd = 38 then
    match s.register.getLastD none with
    | none =>
      match doPop s (some 1) with
      | .error e => .error e
      | .ok (vs, s') =>
        .ok { s' with register := s'.register.dropLast ++ [some (vs.headD 0)] }
    | some v =>
      .ok { s with stack := s.stack.push [v],
                   register := s.register.dropLast ++ [none] }
  else if cmd = 103 then
    match doPop s (some 2) with
    | .error e => .error e
    | .ok (vs, s') =>
      .ok (doPush s' [(s'.code.getItem (vs.getD 0 0, vs.getD 1 0) : ℚ)])
  else if cmd = 112 then
    match doPop s (some 3) with
    | .error e => .error e
    | .ok (vs, s') =>
      .ok { s' with code := s'.code.setItem (vs.getD 1 0, vs.getD 2 0) (vs.getD 0 0) }
  else if cmd = 59 then .ok { s with is_running := false }
  else if cmd = 32 ∨ cmd = 0 then .ok s
  else .error .invalidInstr

/-- The full dispatch table: the random-heading `x` consumes the direction
oracle's value for this cycle, every other command is deterministic. -/
def execCmd (cmd : Int) (rnd : Dir) (s : FishState) : Except ErrKind FishState :=
  if cmd = 120 then .ok { s with direction := rnd }
  else execDet cmd s

/-- Pointer motion at the end of `Fish.next_cycle` (lines 226–232): 1 or 2
cells along the heading's axis (2 consumes the skip-flag), the moved
coordinate reduced by Python `%` modulo (bounding-box extent + 1). -/
def applyMove (s : FishState) : FishState :=
  let d : ℚ := (1 + (if s.skip then 1 else 0)) *
    (if s.direction = .left ∨ s.direction = .up then -1 else 1)
  { s with
    skip := false
    pos := (if s.direction = .right ∨ s.direction = .left then
              qmod (s.pos.1 + d) ((s.code.max_col : ℚ) + 1)
            else s.pos.1,
            if s.direction = .up ∨ s.direction = .down then
              qmod (s.pos.2 + d) ((s.code.max_row : ℚ) + 1)
            else s.pos.2) }

/-- The character (code point) at the instruction pointer. -/
def getCmd (s : FishState) : Int := s.code.get_char s.pos

/-- True when string-parse mode is active and the current character is not
the closing quote, so the cycle pushes the character instead of executing
it. -/
def captures (s : FishState) : Bool :=
  match s.parse_mode with
  | none => false
  | some q => decide (q ≠ getCmd s)

/-- The observable outcome of one cycle (`Fish.next_cycle`): continue with a
new state, halt (`FishEndExecution`, raised by `;` turning `is_running`
off — motion is skipped), or abort with an error. -/
inductive Outcome where
  | next (s : FishState)
  | halt (s : FishState)
  | err (e : ErrKind)
deriving DecidableEq

/-- One cycle of `Fish.next_cycle`: read the character under the pointer;
in capturing parse mode push it verbatim and move on; otherwise reject
unrecognised characters, run the handler, and either halt or move. -/
def step (rnd : Dir) (s : FishState) : Outcome :=
  let cmd := getCmd s
  if captures s then .next (applyMove (doPush s [(cmd : ℚ)]))
  else if cmd ∈ validChars then
    match execCmd cmd rnd s with
    | .error e => .err e
    | .ok s' => if s'.is_running then .next (applyMove s') else .halt s'
  else .err .invalidInstr

/-- `Fish.initialize` with the default flags (`ROUND_VALUES = False`):
fresh codebox from the source, one empty-prefilled stack, one empty
register slot, the reversed input queue, pointer at the origin heading
right. -/
def initFish (src : String) (inp : List ℚ) (stk : List ℚ) : FishState :=
  { code := FishCode.load src false
    stack := (FishStack.mk []).add_stack stk
    register := [none]
    fish_in := inp.reverse
    fish_out := []
    pos := (0, 0)
    direction := .right
    parse_mode := none
    is_running := true
    skip := false }

/-- Result of running with bounded fuel: clean halt with the accumulated
output and final state, abort with an error, or fuel exhausted at an
intermediate state. -/
inductive RunResult where
  | done (out : List OutEvent) (s : FishState)
  | fail (e : ErrKind)
  | more (s : FishState)
deriving DecidableEq

/-- The run loop of `Fish.__call__`, with an explicit direction oracle
(cycle index `k` selects `oracle k`) and fuel. -/
def runAux (oracle : Nat → Dir) : Nat → Nat → FishState → RunResult
  | _, 0, s => .more s
  | k, fuel + 1, s =>
    match step (oracle k) s with
    | .next s' => runAux oracle (k + 1) fuel s'
    | .halt s' => .done s'.fish_out s'
    | .err e => .fail e

/-- Run a source text from a fresh state with no input, a fixed (irrelevant
unless `x` executes) direction oracle, and the given fuel. -/
def runFish (src : String) (fuel : Nat) : RunResult :=
  runAux (fun _ => Dir.right) 0 fuel (initFish src [] [])

/-- The output of a completed (cleanly halted) run. -/
def resultOut : RunResult → Option (List OutEvent)
  | .done out _ => some out
  | _ => none

/-- The error of an aborted run. -/
def resultErr : RunResult → Option ErrKind
  | .fail e => some e
  | _ => none

/-- The intermediate state after the fuel ran out with neither halt nor
error. -/
def stateAfter (src : String) (n : Nat) : Option FishState :=
  match runAux (fun _ => Dir.right) 0 n (initFish src [] []) with
  | .more s => some s
  | _ => none

/-- Pop one value off the active stack of the state reached after `n` cycles
of a fresh run of `src`; `none` when the run is not mid-flight or the pop
fails. -/
def popAfter (src : String) (n : Nat) : Option (List ℚ) :=
  (stateAfter src n).bind fun s =>
    match s.stack.pop (some 1) with
    | .ok (vs, _) => some vs
    | .error _ => none

/-- Frame/register bookkeeping invariant of the interpreter state: the
stack of stacks is never empty and there is exactly one register slot per
frame. -/
def stackInv (s : FishState) : Prop :=
  s.stack.stack ≠ [] ∧ s.register.length = s.stack.stack.length

/-- True when the coming cycle will invoke the direction oracle, i.e. the
character under the pointer is an executed (not captured) `x`. -/
def execsRand (s : FishState) : Bool :=
  !captures s && decide (getCmd s = 120)

/-- Decides that a fueled run never executes the random-heading
instruction `x` (checked cycle by cycle along the run's own trace). -/
def noRandRun (oracle : Nat → Dir) : Nat → Nat → FishState → Bool
  | _, 0, _ => true
  | k, fuel + 1, s =>
    !execsRand s &&
    (match step (oracle k) s with
     | .next s' => noRandRun oracle (k + 1) fuel s'
     | _ => true)

/-- The round trip of the spec's frame-creation/destruction law:
`new_frame(vs); delete_frame()`, then push the values `delete_frame`
returned. -/
def frameRoundTrip (st : FishStack) (vs : List ℚ) : FishStack :=
  match (st.add_stack vs).del_stack with
  | .ok (moved, st') => st'.push moved
  | .error _ => st

/-! Basic facts about the numeric helpers. -/

theorem pyTrunc_intCast (n : Int) : pyTrunc (n : ℚ) = n := by
  unfold pyTrunc
  split <;> simp

theorem pyRound_intCast (n : Int) : pyRound (n : ℚ) = n := by
  unfold pyRound
  simp only [Int.floor_intCast, sub_self]
  norm_num

/-! Basic facts about the stack-of-stacks operations. -/

theorem setActive_stack (st : FishStack) (f : List ℚ) :
    (st.setActive f).stack = st.stack.dropLast ++ [f] := rfl

theorem active_setActive (st : FishStack) (f : List ℚ) :
    (st.setActive f).active = f := by
  simp [FishStack.setActive, FishStack.active]

theorem setActive_setActive (st : FishStack) (f g : List ℚ) :
    (st.setActive f).setActive g = st.setActive g := by
  simp [FishStack.setActive, List.dropLast_concat]

theorem setActive_ne_nil (st : FishStack) (f : List ℚ) :
    (st.setActive f).stack ≠ [] := by
  simp [FishStack.setActive]

theorem setActive_count (st : FishStack) (f : List ℚ) (h : st.stack ≠ []) :
    (st.setActive f).stack.length = st.stack.length := by
  have : 0 < st.stack.length := List.length_pos.mpr h
  simp [FishStack.setActive]
  omega

theorem push_stack (st : FishStack) (vs : List ℚ) :
    st.push vs = st.setActive (st.active ++ vs) := rfl

theorem pop_ok_shape (st : FishStack) (n : Option ℚ) (vs : List ℚ) (st' : FishStack)
    (h : st.pop n = .ok (vs, st')) : ∃ r, st' = st.setActive r := by
  unfold FishStack.pop at h
  split_ifs at h with h1 h2 h3
  · simp only [Except.ok.injEq, Prod.mk.injEq] at h
    exact ⟨_, h.2.symm⟩
  · simp only [Except.ok.injEq, Prod.mk.injEq] at h
    exact ⟨_, h.2.symm⟩

theorem natCast_den (m : Nat) : ((m : ℚ)).den = 1 := by
  rw [show ((m : ℚ)) = ((m : Int) : ℚ) by push_cast; ring]
  exact Rat.den_intCast _

theorem natCast_num_toNat (m : Nat) : ((m : ℚ)).num.toNat = m := by
  rw [show ((m : ℚ)) = ((m : Int) : ℚ) by push_cast; ring, Rat.num_intCast]
  simp

theorem pop_none (st : FishStack) :
    st.pop none = .ok (st.active, st.setActive []) := by
  unfold FishStack.pop
  have hc : popCount st none = (st.length : ℚ) := rfl
  rw [hc, if_neg (lt_irrefl _), if_neg (by simp [natCast_den])]
  by_cases h0 : ((st.length : ℚ)) = 0
  · have : st.length = 0 := by exact_mod_cast h0
    have hact : st.active = [] := List.length_eq_zero.mp this
    simp [h0, hact]
  · rw [if_neg h0, natCast_num_toNat]
    have : st.active.length - st.length = 0 := by simp [FishStack.length]
    simp [this]

theorem pop_one (st : FishStack) (rest : List ℚ) (x : ℚ)
    (h : st.active = rest ++ [x]) :
    st.pop (some 1) = .ok ([x], st.setActive rest) := by
  unfold FishStack.pop
  have hlen : st.length = rest.length + 1 := by simp [FishStack.length, h]
  have hc : popCount st (some 1) = 1 := by simp [popCount]
  rw [hc]
  rw [if_neg (by push_cast [hlen]; norm_num)]
  rw [if_neg (by norm_num)]
  rw [if_neg (by norm_num)]
  have h2 : st.active.length - ((1:ℚ)).num.toNat = rest.length := by
    norm_num [h, hlen]
  rw [h2, h, List.drop_left, List.take_left]

theorem pop_two (st : FishStack) (rest : List ℚ) (x y : ℚ)
    (h : st.active = rest ++ [x, y]) :
    st.pop (some 2) = .ok ([x, y], st.setActive rest) := by
  unfold FishStack.pop
  have hlen : st.length = rest.length + 2 := by simp [FishStack.length, h]
  have hc : popCount st (some 2) = 2 := by simp [popCount]
  rw [hc]
  rw [if_neg (by push_cast [hlen]; norm_num)]
  rw [if_neg (by norm_num)]
  rw [if_neg (by norm_num)]
  have h2 : st.active.length - ((2:ℚ)).num.toNat = rest.length := by
    norm_num [h, hlen]
    omega
  rw [h2, h, List.drop_left, List.take_left]

/-! Claims C4, C8, C9, C10. -/

/-- C4: the claim says `pop(n)` with `n <= 0` returns the empty sequence
without error, LEAVING THE FRAME UNCHANGED.  The code indeed returns the
empty sequence without error, but the slice assignment
`self.stack[-1][-n:] = []` collapses to `[0:] = []` for the clamped count 0,
which clears the entire active frame: popping 0 (or any `n ≤ 0`) from the
frame `[1, 2, 3]` leaves the frame `[]`, not `[1, 2, 3]`. -/
theorem C4_pop_zero_clears_frame :
    (FishStack.mk [[1, 2, 3]]).pop (some 0) = .ok ([], FishStack.mk [[]]) ∧
    (FishStack.mk [[1, 2, 3]]).pop (some (-1)) = .ok ([], FishStack.mk [[]]) ∧
    (FishStack.mk [[1, 2, 3]]).pop (some 0) ≠ .ok ([], FishStack.mk [[1, 2, 3]]) := by
  decide

/-- C8 counterexample: `new_frame([1]); delete_frame(); push(returned)` on
the single-frame stack with an empty frame does NOT restore that prior
state — the returned values end up appended to the frame. -/
theorem C8_roundtrip_counterexample :
    frameRoundTrip (FishStack.mk [[]]) [1] ≠ FishStack.mk [[]] ∧
    frameRoundTrip (FishStack.mk [[]]) [1] = FishStack.mk [[1]] := by
  decide

/-- C8 (amended): for every single-frame stack state and value sequence
`vs`, `new_frame(vs); delete_frame()` followed by pushing the returned
values yields the prior state with `vs` appended to its frame — so the
prior state is restored exactly precisely when `vs` had first been popped
off that frame (or is empty). -/
theorem C8_roundtrip_appends (act vs : List ℚ) :
    frameRoundTrip (FishStack.mk [act]) vs = FishStack.mk [act ++ vs] := by
  have h1 : (FishStack.mk [act]).add_stack vs = FishStack.mk [act, vs] := rfl
  have h2 : (FishStack.mk [act, vs]).del_stack = .ok (vs, FishStack.mk [act]) := by
    unfold FishStack.del_stack
    rw [pop_none]
    rfl
  unfold frameRoundTrip
  rw [h1, h2]
  rfl

/-- C9 counterexample: for the program `"  1"`, after exactly TWO cycles the
pointer has only executed the two spaces and sits on the `1`; the stack is
still empty, so popping yields an error, not the value 1. -/
theorem C9_two_cycles_counterexample :
    popAfter ("  1") 2 ≠ some [1] ∧ popAfter ("  1") 2 = none := by
  decide

/-- C9 (amended): for the program `"  1"` started at (0,0) heading right,
stepping THREE times (the third cycle executes the `1`) and then popping
one value off the active stack yields decimal 1. -/
theorem C9_three_cycles_pop_one :
    popAfter ("  1") 3 = some [1] := by
  decide

/-- C10: when the active frame holds fewer than two values the rotate
instructions `}` (code point 125) and `{` (123) return the state entirely
unchanged and raise no error. -/
theorem C10_shift_small_stack (s : FishState) (h : s.stack.length ≤ 1) :
    execDet 125 s = .ok s ∧ execDet 123 s = .ok s := by
  constructor <;>
  · unfold execDet
    norm_num
    intro hgt
    exact absurd hgt (by omega)

/-- C10 witness: both rotates on the freshly initialized (empty-stack) state
of the empty program leave the state unchanged. -/
theorem C10_witness :
    execDet 125 (initFish ("") [] []) = .ok (initFish ("") [] []) ∧
    execDet 123 (initFish ("") [] []) = .ok (initFish ("") [] []) :=
  C10_shift_small_stack (initFish ("") [] []) (by decide)

theorem doPop_one (s : FishState) (rest : List ℚ) (x : ℚ)
    (h : s.stack.active = rest ++ [x]) :
    doPop s (some 1) = .ok ([x], { s with stack := s.stack.setActive rest }) := by
  unfold doPop
  rw [pop_one s.stack rest x h]

theorem doPop_two (s : FishState) (rest : List ℚ) (x y : ℚ)
    (h : s.stack.active = rest ++ [x, y]) :
    doPop s (some 2) = .ok ([x, y], { s with stack := s.stack.setActive rest }) := by
  unfold doPop
  rw [pop_two s.stack rest x y h]

/-- C6: each of `+ - * , %` pops two values (`x` the deeper one, `y` the
top) and pushes `x <op> y`, where `,` is exact division; for `,` (and `%`)
a zero divisor raises the reported division-by-zero error instead of an
unhandled crash. -/
theorem C6_arithmetic (s : FishState) (rest : List ℚ) (x y : ℚ)
    (h : s.stack.active = rest ++ [x, y]) :
    execDet 43 s = .ok { s with stack := s.stack.setActive (rest ++ [x + y]) } ∧
    execDet 45 s = .ok { s with stack := s.stack.setActive (rest ++ [x - y]) } ∧
    execDet 42 s = .ok { s with stack := s.stack.setActive (rest ++ [x * y]) } ∧
    (y ≠ 0 → execDet 44 s = .ok { s with stack := s.stack.setActive (rest ++ [x / y]) }) ∧
    (y = 0 → execDet 44 s = .error .divByZero) ∧
    (y ≠ 0 → execDet 37 s = .ok { s with stack := s.stack.setActive (rest ++ [qmod x y]) }) ∧
    (y = 0 → execDet 37 s = .error .divByZero) := by
  refine ⟨?_, ?_, ?_, ?_, ?_, ?_, ?_⟩
  · unfold execDet
    norm_num
    rw [doPop_two s rest x y h]
    simp [doPush, push_stack, active_setActive, setActive_setActive]
  · unfold execDet
    norm_num
    rw [doPop_two s rest x y h]
    simp [doPush, push_stack, active_setActive, setActive_setActive]
  · unfold execDet
    norm_num
    rw [doPop_two s rest x y h]
    simp [doPush, push_stack, active_setActive, setActive_setActive]
  · intro hy
    unfold execDet
    norm_num
    rw [doPop_two s rest x y h]
    simp [hy, doPush, push_stack, active_setActive, setActive_setActive]
  · intro hy
    unfold execDet
    norm_num
    rw [doPop_two s rest x y h]
    simp [hy]
  · intro hy
    unfold execDet
    norm_num
    rw [doPop_two s rest x y h]
    simp [hy, doPush, push_stack, active_setActive, setActive_setActive]
  · intro hy
    unfold execDet
    norm_num
    rw [doPop_two s rest x y h]
    simp [hy]

/-- C6 witness: `+` on the frame `[4, 6]` pushes 10, and `,` with a zero
divisor reports the division-by-zero error. -/
theorem C6_witness :
    execDet 43 { initFish ("") [] [] with stack := FishStack.mk [[4, 6]] } =
      .ok { initFish ("") [] [] with
            stack := (FishStack.mk [[4, 6]]).setActive ([] ++ [4 + 6]) } ∧
    execDet 44 { initFish ("") [] [] with stack := FishStack.mk [[4, 0]] } =
      .error .divByZero :=
  ⟨(C6_arithmetic _ [] 4 6 (by decide)).1,
   (C6_arithmetic _ [] 4 0 (by decide)).2.2.2.2.1 rfl⟩

theorem parse_value_intCast (cb : FishCode) (n : Int) :
    cb.parse_value (n : ℚ) = n := by
  unfold FishCode.parse_value
  split
  · exact pyRound_intCast n
  · exact pyTrunc_intCast n

/-- C1: writing `v` at an integer position `(c, r)` stores `v` there (so a
subsequent read returns it), extends each bounding-box bound that `(c, r)`
lies outside of to the min/max with the new coordinate (so the box then
contains the position), and subsequent pointer motion on the column axis
wraps modulo the EXTENDED extent `max(max_col, c) + 1`.  The hypotheses
`min ≤ max` hold for every codebox the interpreter ever builds (both bounds
start at 0 and only ever move apart). -/
theorem C1_set_extends_box (cb : FishCode) (c r v : Int)
    (hc : cb.min_col ≤ cb.max_col) (hr : cb.min_row ≤ cb.max_row) :
    (cb.setItem ((c : ℚ), (r : ℚ)) (v : ℚ)).getItem ((c : ℚ), (r : ℚ)) = v ∧
    (cb.setItem ((c : ℚ), (r : ℚ)) (v : ℚ)).min_col = min cb.min_col c ∧
    (cb.setItem ((c : ℚ), (r : ℚ)) (v : ℚ)).max_col = max cb.max_col c ∧
    (cb.setItem ((c : ℚ), (r : ℚ)) (v : ℚ)).min_row = min cb.min_row r ∧
    (cb.setItem ((c : ℚ), (r : ℚ)) (v : ℚ)).max_row = max cb.max_row r ∧
    (cb.setItem ((c : ℚ), (r : ℚ)) (v : ℚ)).bounding_box_contains
      ((c : ℚ), (r : ℚ)) = true ∧
    (∀ m : FishState, m.code = cb.setItem ((c : ℚ), (r : ℚ)) (v : ℚ) →
      m.direction = .right → m.skip = false →
      (applyMove m).pos.1 = qmod (m.pos.1 + 1) ((max cb.max_col c : ℚ) + 1)) := by
  have hget : (cb.setItem ((c : ℚ), (r : ℚ)) (v : ℚ)).getItem ((c : ℚ), (r : ℚ)) = v := by
    unfold FishCode.setItem FishCode.getItem FishCode.parse_coord
    simp [parse_value_intCast, lookupCell]
  have hmincol : (cb.setItem ((c : ℚ), (r : ℚ)) (v : ℚ)).min_col = min cb.min_col c := by
    unfold FishCode.setItem
    simp only [parse_value_intCast]
    split_ifs <;> omega
  have hmaxcol : (cb.setItem ((c : ℚ), (r : ℚ)) (v : ℚ)).max_col = max cb.max_col c := by
    unfold FishCode.setItem
    simp only [parse_value_intCast]
    split_ifs <;> omega
  have hminrow : (cb.setItem ((c : ℚ), (r : ℚ)) (v : ℚ)).min_row = min cb.min_row r := by
    unfold FishCode.setItem
    simp only [parse_value_intCast]
    split_ifs <;> omega
  have hmaxrow : (cb.setItem ((c : ℚ), (r : ℚ)) (v : ℚ)).max_row = max cb.max_row r := by
    unfold FishCode.setItem
    simp only [parse_value_intCast]
    split_ifs <;> omega
  refine ⟨hget, hmincol, hmaxcol, hminrow, hmaxrow, ?_, ?_⟩
  · have hrv : (cb.setItem ((c : ℚ), (r : ℚ)) (v : ℚ)).round_values = cb.round_values := rfl
    unfold FishCode.bounding_box_contains FishCode.parse_coord
    simp only [parse_value_intCast, hmincol, hmaxcol, hminrow, hmaxrow,
      Bool.and_eq_true, decide_eq_true_eq]
    refine ⟨⟨⟨?_, ?_⟩, ?_⟩, ?_⟩ <;> omega
  · intro m hm hd hs
    unfold applyMove
    rw [hd, hs]
    simp only [hm, hmaxcol]
    norm_num
    simp

/-- C1 witness: on the empty program's codebox (bounds all 0), writing 7 at
(5, 2) makes a subsequent read of (5, 2) return 7. -/
theorem C1_witness :
    ((FishCode.load ("") false).setItem (((5 : Int) : ℚ), ((2 : Int) : ℚ))
      ((7 : Int) : ℚ)).getItem (((5 : Int) : ℚ), ((2 : Int) : ℚ)) = (7 : Int) :=
  (C1_set_extends_box (FishCode.load ("") false) 5 2 7 (by decide) (by decide)).1

theorem qmod_self (b : ℚ) (hb : b ≠ 0) : qmod b b = 0 := by
  unfold qmod
  rw [div_self hb]
  simp

theorem qmod_neg_one (b : ℚ) (hb : 1 ≤ b) : qmod (-1) b = b - 1 := by
  unfold qmod
  have hb0 : 0 < b := lt_of_lt_of_le one_pos hb
  have hfl : ⌊(-1 : ℚ) / b⌋ = -1 := by
    rw [Int.floor_eq_iff]
    constructor
    · push_cast
      rw [neg_div, neg_le_neg_iff]
      exact (div_le_one hb0).mpr hb
    · push_cast
      have h1 : 0 < 1 / b := by positivity
      rw [neg_div]
      linarith
  rw [hfl]
  push_cast
  ring

/-- C2: every non-halting executed cycle ends with the motion step
`applyMove`; that step clears the skip-flag and advances only the
coordinate of the current heading's axis, by 1 (or 2 when the skip-flag was
set), reducing it with Python `%` modulo (bounding-box extent + 1); in
particular with no skip pending, moving right off the max column wraps the
column to 0 and moving left off column 0 wraps it to the max column. -/
theorem C2_motion :
    (∀ rnd s s', step rnd s = .next s' → ∃ m, s' = applyMove m) ∧
    (∀ m : FishState, (applyMove m).skip = false) ∧
    (∀ m : FishState, m.direction = .right → (applyMove m).pos =
      (qmod (m.pos.1 + (if m.skip then 2 else 1)) ((m.code.max_col : ℚ) + 1), m.pos.2)) ∧
    (∀ m : FishState, m.direction = .left → (applyMove m).pos =
      (qmod (m.pos.1 - (if m.skip then 2 else 1)) ((m.code.max_col : ℚ) + 1), m.pos.2)) ∧
    (∀ m : FishState, m.direction = .down → (applyMove m).pos =
      (m.pos.1, qmod (m.pos.2 + (if m.skip then 2 else 1)) ((m.code.max_row : ℚ) + 1))) ∧
    (∀ m : FishState, m.direction = .up → (applyMove m).pos =
      (m.pos.1, qmod (m.pos.2 - (if m.skip then 2 else 1)) ((m.code.max_row : ℚ) + 1))) ∧
    (∀ m : FishState, 0 ≤ m.code.max_col → m.direction = .right → m.skip = false →
      m.pos.1 = (m.code.max_col : ℚ) → (applyMove m).pos.1 = 0) ∧
    (∀ m : FishState, 0 ≤ m.code.max_col → m.direction = .left → m.skip = false →
      m.pos.1 = 0 → (applyMove m).pos.1 = (m.code.max_col : ℚ)) := by
  have hR : ∀ m : FishState, m.direction = .right → (applyMove m).pos =
      (qmod (m.pos.1 + (if m.skip then 2 else 1)) ((m.code.max_col : ℚ) + 1), m.pos.2) := by
    intro m hd
    unfold applyMove
    rw [hd]
    cases hsk : m.skip <;> simp [Prod.ext_iff, qmod] <;> ring_nf
  have hL : ∀ m : FishState, m.direction = .left → (applyMove m).pos =
      (qmod (m.pos.1 - (if m.skip then 2 else 1)) ((m.code.max_col : ℚ) + 1), m.pos.2) := by
    intro m hd
    unfold applyMove
    rw [hd]
    cases hsk : m.skip <;> simp [Prod.ext_iff, qmod] <;> ring_nf
  have hD : ∀ m : FishState, m.direction = .down → (applyMove m).pos =
      (m.pos.1, qmod (m.pos.2 + (if m.skip then 2 else 1)) ((m.code.max_row : ℚ) + 1)) := by
    intro m hd
    unfold applyMove
    rw [hd]
    cases hsk : m.skip <;> simp [Prod.ext_iff, qmod] <;> ring_nf
  have hU : ∀ m : FishState, m.direction = .up → (applyMove m).pos =
      (m.pos.1, qmod (m.pos.2 - (if m.skip then 2 else 1)) ((m.code.max_row : ℚ) + 1)) := by
    intro m hd
    unfold applyMove
    rw [hd]
    cases hsk : m.skip <;> simp [Prod.ext_iff, qmod] <;> ring_nf
  refine ⟨?_, ?_, hR, hL, hD, hU, ?_, ?_⟩
  · intro rnd s s' h
    simp only [step] at h
    split_ifs at h with h1 h2
    · simp only [Outcome.next.injEq] at h
      exact ⟨_, h.symm⟩
    · rcases hex : execCmd (getCmd s) rnd s with e | s0
      · rw [hex] at h
        simp at h
      · rw [hex] at h
        by_cases hrun : s0.is_running
        · simp only [hrun, if_pos, Outcome.next.injEq] at h
          exact ⟨s0, h.symm⟩
        · simp [hrun] at h
  · intro m
    unfold applyMove
    rfl
  · intro m h0 hd hsk hpos
    rw [hR m hd]
    simp only [hsk, if_neg Bool.false_ne_true, hpos]
    have hb : ((m.code.max_col : ℚ) + 1) ≠ 0 := by
      have : (0 : ℚ) ≤ (m.code.max_col : ℚ) := by exact_mod_cast h0
      positivity
    simpa using qmod_self _ hb
  · intro m h0 hd hsk hpos
    rw [hL m hd]
    simp only [hsk, if_neg Bool.false_ne_true, hpos]
    have hb : (1 : ℚ) ≤ (m.code.max_col : ℚ) + 1 := by
      have : (0 : ℚ) ≤ (m.code.max_col : ℚ) := by exact_mod_cast h0
      linarith
    rw [show (0 : ℚ) - 1 = -1 by ring, qmod_neg_one _ hb]
    ring

/-- C2 witness: on the codebox of `"  1"` (max column 2), a state sitting at
column 2 heading right with no pending skip wraps to column 0. -/
theorem C2_witness :
    (applyMove { initFish ("  1") [] [] with pos := ((2 : ℚ), 0) }).pos.1 = 0 :=
  (C2_motion.2.2.2.2.2.2.1) _ (by decide) rfl rfl (by decide)

theorem step_rnd_irrel (r1 r2 : Dir) (s : FishState) (h : execsRand s = false) :
    step r1 s = step r2 s := by
  unfold step
  by_cases hc : captures s = true
  · simp [hc]
  · have hcmd : getCmd s ≠ 120 := by
      unfold execsRand at h
      simp only [Bool.and_eq_false_iff, Bool.not_eq_false'] at h
      rcases h with h | h
      · exact absurd h (by simpa using hc)
      · simpa using h
    simp only [execCmd, if_neg hcmd]

theorem runAux_oracle_irrel (o1 o2 : Nat → Dir) (fuel : Nat) :
    ∀ k s, noRandRun o1 k fuel s = true → runAux o1 k fuel s = runAux o2 k fuel s := by
  induction fuel with
  | zero => intro k s _; rfl
  | succ n ih =>
    intro k s h
    unfold noRandRun at h
    simp only [Bool.and_eq_true, Bool.not_eq_true'] at h
    obtain ⟨h1, h2⟩ := h
    have hs := step_rnd_irrel (o1 k) (o2 k) s h1
    unfold runAux
    rw [← hs]
    cases hstep : step (o1 k) s with
    | next s' =>
      rw [hstep] at h2
      exact ih (k + 1) s' h2
    | halt s' => rfl
    | err e => rfl

/-- C7: runs are deterministic except through the random-heading
instruction `x` — if a fueled run (from any source, input and initial
stack) never executes `x`, its result (halt with output and final state,
error, or intermediate state at fuel exhaustion) is the same under every
direction oracle. -/
theorem C7_deterministic_without_x (src : String) (inp stk : List ℚ)
    (fuel : Nat) (o1 o2 : Nat → Dir)
    (h : noRandRun o1 0 fuel (initFish src inp stk) = true) :
    runAux o1 0 fuel (initFish src inp stk) = runAux o2 0 fuel (initFish src inp stk) :=
  runAux_oracle_irrel o1 o2 fuel 0 (initFish src inp stk) h

/-- C7 witness: the x-free program `1;` runs to the same result under the
all-right and the all-left oracles. -/
theorem C7_witness :
    runAux (fun _ => Dir.right) 0 3 (initFish ("1;") [] []) =
      runAux (fun _ => Dir.left) 0 3 (initFish ("1;") [] []) :=
  C7_deterministic_without_x ("1;") [] [] 3 (fun _ => Dir.right) (fun _ => Dir.left)
    (by decide)

theorem doPop_ok_fields (s : FishState) (n : Option ℚ) (vs : List ℚ) (s1 : FishState)
    (h : doPop s n = .ok (vs, s1)) :
    (∃ r, s1.stack = s.stack.setActive r) ∧ s1.register = s.register ∧
      s1.is_running = s.is_running := by
  unfold doPop at h
  cases hp : s.stack.pop n with
  | error e =>
    rw [hp] at h
    exact absurd h (by simp)
  | ok p =>
    obtain ⟨vs0, st0⟩ := p
    rw [hp] at h
    simp only [Except.ok.injEq, Prod.mk.injEq] at h
    obtain ⟨-, h2⟩ := h
    subst h2
    rcases pop_ok_shape _ _ _ _ hp with ⟨r, rfl⟩
    exact ⟨⟨r, rfl⟩, rfl, rfl⟩

theorem stackInv_popped (s s1 : FishState) (n : Option ℚ) (vs : List ℚ)
    (hp : doPop s n = .ok (vs, s1)) (hi : stackInv s) : stackInv s1 := by
  obtain ⟨⟨r, hr⟩, hreg, -⟩ := doPop_ok_fields s n vs s1 hp
  refine ⟨by rw [hr]; exact setActive_ne_nil _ _, ?_⟩
  rw [hreg, hr, setActive_count _ _ hi.1]
  exact hi.2

theorem stackInv_push (s : FishState) (vs : List ℚ) (h : stackInv s) :
    stackInv (doPush s vs) := by
  unfold doPush
  rw [push_stack]
  exact ⟨setActive_ne_nil _ _, by rw [setActive_count _ _ h.1]; exact h.2⟩

theorem dropLast_append_one_length {α : Type} (l : List α) (x : α) (h : l ≠ []) :
    (l.dropLast ++ [x]).length = l.length := by
  have : 0 < l.length := List.length_pos.mpr h
  simp [List.length_dropLast]
  omega

theorem register_ne_nil (s : FishState) (hi : stackInv s) : s.register ≠ [] := by
  have h1 : 0 < s.stack.stack.length := List.length_pos.mpr hi.1
  have h2 : 0 < s.register.length := by rw [hi.2]; exact h1
  exact List.length_pos.mp h2

theorem add_stack_ne_nil (st : FishStack) (fill : List ℚ) :
    (st.add_stack fill).stack ≠ [] := by
  unfold FishStack.add_stack
  rw [push_stack]
  exact setActive_ne_nil _ _

theorem add_stack_count (st : FishStack) (fill : List ℚ) :
    (st.add_stack fill).stack.length = st.stack.length + 1 := by
  unfold FishStack.add_stack
  rw [push_stack, setActive_count _ _ (by simp)]
  simp

theorem del_stack_multi (st : FishStack) (h : 1 < st.stack.length) :
    st.del_stack = .ok (st.active, FishStack.mk st.stack.dropLast) := by
  unfold FishStack.del_stack
  rw [pop_none]
  have hne : st.stack ≠ [] := by
    intro hc
    rw [hc] at h
    simp at h
  show (if (st.setActive []).stack_count > 1 then
          Except.ok (st.active, FishStack.mk (st.setActive []).stack.dropLast)
        else Except.ok (st.active, st.setActive [])) = _
  rw [if_pos]
  · have : (st.setActive []).stack.dropLast = st.stack.dropLast := by
      rw [setActive_stack, List.dropLast_concat]
    rw [this]
  · unfold FishStack.stack_count
    rw [setActive_count _ _ hne]
    exact h

theorem del_stack_single (st : FishStack) (hne : st.stack ≠ []) (h : st.stack.length ≤ 1) :
    st.del_stack = .ok (st.active, st.setActive []) := by
  unfold FishStack.del_stack
  rw [pop_none]
  show (if (st.setActive []).stack_count > 1 then
          Except.ok (st.active, FishStack.mk (st.setActive []).stack.dropLast)
        else Except.ok (st.active, st.setActive [])) = _
  rw [if_neg]
  unfold FishStack.stack_count
  rw [setActive_count _ _ hne]
  omega

set_option maxHeartbeats 3000000 in
theorem execDet_ok_fields (cmd : Int) (s s' : FishState)
    (h : execDet cmd s = .ok s') (hi : stackInv s) :
    stackInv s' ∧ (cmd ≠ 59 → s'.is_running = s.is_running) := by
  unfold execDet at h
  by_cases h62 : cmd = 62
  · rw [if_pos h62] at h
    simp only [Except.ok.injEq] at h
    subst h
    exact ⟨hi, fun _ => rfl⟩
  rw [if_neg h62] at h
  by_cases h60 : cmd = 60
  · rw [if_pos h60] at h
    simp only [Except.ok.injEq] at h
    subst h
    exact ⟨hi, fun _ => rfl⟩
  rw [if_neg h60] at h
  by_cases h118 : cmd = 118
  · rw [if_pos h118] at h
    simp only [Except.ok.injEq] at h
    subst h
    exact ⟨hi, fun _ => rfl⟩
  rw [if_neg h118] at h
  by_cases h94 : cmd = 94
  · rw [if_pos h94] at h
    simp only [Except.ok.injEq] at h
    subst h
    exact ⟨hi, fun _ => rfl⟩
  rw [if_neg h94] at h
  by_cases h47 : cmd = 47
  · rw [if_pos h47] at h
    simp only [Except.ok.injEq] at h
    subst h
    exact ⟨hi, fun _ => rfl⟩
  rw [if_neg h47] at h
  by_cases h92 : cmd = 92
  · rw [if_pos h92] at h
    simp only [Except.ok.injEq] at h
    subst h
    exact ⟨hi, fun _ => rfl⟩
  rw [if_neg h92] at h
  by_cases h95 : cmd = 95
  · rw [if_pos h95] at h
    simp only [Except.ok.injEq] at h
    subst h
    exact ⟨hi, fun _ => rfl⟩
  rw [if_neg h95] at h
  by_cases h124 : cmd = 124
  · rw [if_pos h124] at h
    simp only [Except.ok.injEq] at h
    subst h
    exact ⟨hi, fun _ => rfl⟩
  rw [if_neg h124] at h
  by_cases h35 : cmd = 35
  · rw [if_pos h35] at h
    simp only [Except.ok.injEq] at h
    subst h
    exact ⟨hi, fun _ => rfl⟩
  rw [if_neg h35] at h
  by_cases h33 : cmd = 33
  · rw [if_pos h33] at h
    simp only [Except.ok.injEq] at h
    subst h
    exact ⟨hi, fun _ => rfl⟩
  rw [if_neg h33] at h
  by_cases h63 : cmd = 63
  · rw [if_pos h63] at h
    cases hp : doPop s (some 1) with
    | error e =>
      rw [hp] at h
      exact absurd h (by simp)
    | ok p =>
      obtain ⟨vs, s1⟩ := p
      rw [hp] at h
      simp only [Except.ok.injEq] at h
      have hs1 := stackInv_popped s s1 _ vs hp hi
      have hrun := (doPop_ok_fields s _ vs s1 hp).2.2
      subst h
      exact ⟨hs1, fun _ => hrun⟩
  rw [if_neg h63] at h
  by_cases h46 : cmd = 46
  · rw [if_pos h46] at h
    cases hp : doPop s (some 2) with
    | error e =>
      rw [hp] at h
      exact absurd h (by simp)
    | ok p =>
      obtain ⟨vs, s1⟩ := p
      rw [hp] at h
      simp only [Except.ok.injEq] at h
      have hs1 := stackInv_popped s s1 _ vs hp hi
      have hrun := (doPop_ok_fields s _ vs s1 hp).2.2
      subst h
      exact ⟨hs1, fun _ => hrun⟩
  rw [if_neg h46] at h
  by_cases hlit : (48 ≤ cmd ∧ cmd ≤ 57) ∨ (97 ≤ cmd ∧ cmd ≤ 102)
  · rw [if_pos hlit] at h
    simp only [Except.ok.injEq] at h
    subst h
    exact ⟨stackInv_push s _ hi, fun _ => rfl⟩
  rw [if_neg hlit] at h
  by_cases harith : cmd = 43 ∨ cmd = 45 ∨ cmd = 42
  · rw [if_pos harith] at h
    cases hp : doPop s (some 2) with
    | error e =>
      rw [hp] at h
      exact absurd h (by simp)
    | ok p =>
      obtain ⟨vs, s1⟩ := p
      rw [hp] at h
      simp only [Except.ok.injEq] at h
      have hs1 := stackInv_popped s s1 _ vs hp hi
      have hrun := (doPop_ok_fields s _ vs s1 hp).2.2
      subst h
      exact ⟨stackInv_push s1 _ hs1, fun _ => hrun⟩
  rw [if_neg harith] at h
  by_cases h44 : cmd = 44
  · rw [if_pos h44] at h
    cases hp : doPop s (some 2) with
    | error e =>
      rw [hp] at h
      exact absurd h (by simp)
    | ok p =>
      obtain ⟨vs, s1⟩ := p
      rw [hp] at h
      simp only [Except.ok.injEq] at h
      have hs1 := stackInv_popped s s1 _ vs hp hi
      have hrun := (doPop_ok_fields s _ vs s1 hp).2.2
      split at h
      · exact absurd h (by simp)
      · simp only [Except.ok.injEq] at h
        subst h
        exact ⟨stackInv_push s1 _ hs1, fun _ => hrun⟩
  rw [if_neg h44] at h
  by_cases h37 : cmd = 37
  · rw [if_pos h37] at h
    cases hp : doPop s (some 2) with
    | error e =>
      rw [hp] at h
      exact absurd h (by simp)
    | ok p =>
      obtain ⟨vs, s1⟩ := p
      rw [hp] at h
      simp only [Except.ok.injEq] at h
      have hs1 := stackInv_popped s s1 _ vs hp hi
      have hrun := (doPop_ok_fields s _ vs s1 hp).2.2
      split at h
      · exact absurd h (by simp)
      · simp only [Except.ok.injEq] at h
        subst h
        exact ⟨stackInv_push s1 _ hs1, fun _ => hrun⟩
  rw [if_neg h37] at h
  by_cases h61 : cmd = 61
  · rw [if_pos h61] at h
    cases hp : doPop s (some 2) with
    | error e =>
      rw [hp] at h
      exact absurd h (by simp)
    | ok p =>
      obtain ⟨vs, s1⟩ := p
      rw [hp] at h
      simp only [Except.ok.injEq] at h
      have hs1 := stackInv_popped s s1 _ vs hp hi
      have hrun := (doPop_ok_fields s _ vs s1 hp).2.2
      subst h
      exact ⟨stackInv_push s1 _ hs1, fun _ => hrun⟩
  rw [if_neg h61] at h
  by_cases h41 : cmd = 41
  · rw [if_pos h41] at h
    cases hp : doPop s (some 2) with
    | error e =>
      rw [hp] at h
      exact absurd h (by simp)
    | ok p =>
      obtain ⟨vs, s1⟩ := p
      rw [hp] at h
      simp only [Except.ok.injEq] at h
      have hs1 := stackInv_popped s s1 _ vs hp hi
      have hrun := (doPop_ok_fields s _ vs s1 hp).2.2
      subst h
      exact ⟨stackInv_push s1 _ hs1, fun _ => hrun⟩
  rw [if_neg h41] at h
  by_cases h40 : cmd = 40
  · rw [if_pos h40] at h
    cases hp : doPop s (some 2) with
    | error e =>
      rw [hp] at h
      exact absurd h (by simp)
    | ok p =>
      obtain ⟨vs, s1⟩ := p
      rw [hp] at h
      simp only [Except.ok.injEq] at h
      have hs1 := stackInv_popped s s1 _ vs hp hi
      have hrun := (doPop_ok_fields s _ vs s1 hp).2.2
      subst h
      exact ⟨stackInv_push s1 _ hs1, fun _ => hrun⟩
  rw [if_neg h40] at h
  by_cases h39q : cmd = 39
  · rw [if_pos h39q] at h
    simp only [Except.ok.injEq] at h
    subst h
    exact ⟨hi, fun _ => rfl⟩
  rw [if_neg h39q] at h
  by_cases h34 : cmd = 34
  · rw [if_pos h34] at h
    simp only [Except.ok.injEq] at h
    subst h
    exact ⟨hi, fun _ => rfl⟩
  rw [if_neg h34] at h
  by_cases h58 : cmd = 58
  · rw [if_pos h58] at h
    cases hp : doPop s (some 1) with
    | error e =>
      rw [hp] at h
      exact absurd h (by simp)
    | ok p =>
      obtain ⟨vs, s1⟩ := p
      rw [hp] at h
      simp only [Except.ok.injEq] at h
      have hs1 := stackInv_popped s s1 _ vs hp hi
      have hrun := (doPop_ok_fields s _ vs s1 hp).2.2
      subst h
      exact ⟨stackInv_push s1 _ hs1, fun _ => hrun⟩
  rw [if_neg h58] at h
  by_cases h126 : cmd = 126
  · rw [if_pos h126] at h
    cases hp : doPop s (some 1) with
    | error e =>
      rw [hp] at h
      exact absurd h (by simp)
    | ok p =>
      obtain ⟨vs, s1⟩ := p
      rw [hp] at h
      simp only [Except.ok.injEq] at h
      have hs1 := stackInv_popped s s1 _ vs hp hi
      have hrun := (doPop_ok_fields s _ vs s1 hp).2.2
      subst h
      exact ⟨hs1, fun _ => hrun⟩
  rw [if_neg h126] at h
  by_cases h36 : cmd = 36
  · rw [if_pos h36] at h
    cases hp : doPop s (some 2) with
    | error e =>
      rw [hp] at h
      exact absurd h (by simp)
    | ok p =>
      obtain ⟨vs, s1⟩ := p
      rw [hp] at h
      simp only [Except.ok.injEq] at h
      have hs1 := stackInv_popped s s1 _ vs hp hi
      have hrun := (doPop_ok_fields s _ vs s1 hp).2.2
      subst h
      exact ⟨stackInv_push s1 _ hs1, fun _ => hrun⟩
  rw [if_neg h36] at h
  by_cases h64 : cmd = 64
  · rw [if_pos h64] at h
    cases hp : doPop s (some 3) with
    | error e =>
      rw [hp] at h
      exact absurd h (by simp)
    | ok p =>
      obtain ⟨vs, s1⟩ := p
      rw [hp] at h
      simp only [Except.ok.injEq] at h
      have hs1 := stackInv_popped s s1 _ vs hp hi
      have hrun := (doPop_ok_fields s _ vs s1 hp).2.2
      subst h
      exact ⟨stackInv_push s1 _ hs1, fun _ => hrun⟩
  rw [if_neg h64] at h
  by_cases h125 : cmd = 125
  · rw [if_pos h125] at h
    split at h
    · cases hp : doPop s none with
      | error e =>
        rw [hp] at h
        exact absurd h (by simp)
      | ok p =>
        obtain ⟨vs, s1⟩ := p
        rw [hp] at h
        simp only [Except.ok.injEq] at h
        have hs1 := stackInv_popped s s1 _ vs hp hi
        have hrun := (doPop_ok_fields s _ vs s1 hp).2.2
        subst h
        exact ⟨stackInv_push s1 _ hs1, fun _ => hrun⟩
    · simp only [Except.ok.injEq] at h
      subst h
      exact ⟨hi, fun _ => rfl⟩
  rw [if_neg h125] at h
  by_cases h123 : cmd = 123
  · rw [if_pos h123] at h
    split at h
    · cases hp : doPop s none with
      | error e =>
        rw [hp] at h
        exact absurd h (by simp)
      | ok p =>
        obtain ⟨vs, s1⟩ := p
        rw [hp] at h
        simp only [Except.ok.injEq] at h
        have hs1 := stackInv_popped s s1 _ vs hp hi
        have hrun := (doPop_ok_fields s _ vs s1 hp).2.2
        subst h
        exact ⟨stackInv_push s1 _ hs1, fun _ => hrun⟩
    · simp only [Except.ok.injEq] at h
      subst h
      exact ⟨hi, fun _ => rfl⟩
  rw [if_neg h123] at h
  by_cases h114 : cmd = 114
  · rw [if_pos h114] at h
    cases hp : doPop s none with
    | error e =>
      rw [hp] at h
      exact absurd h (by simp)
    | ok p =>
      obtain ⟨vs, s1⟩ := p
      rw [hp] at h
      simp only [Except.ok.injEq] at h
      have hs1 := stackInv_popped s s1 _ vs hp hi
      have hrun := (doPop_ok_fields s _ vs s1 hp).2.2
      subst h
      exact ⟨stackInv_push s1 _ hs1, fun _ => hrun⟩
  rw [if_neg h114] at h
  by_cases h108 : cmd = 108
  · rw [if_pos h108] at h
    simp only [Except.ok.injEq] at h
    subst h
    exact ⟨stackInv_push s _ hi, fun _ => rfl⟩
  rw [if_neg h108] at h
  by_cases h91 : cmd = 91
  · rw [if_pos h91] at h
    cases hp1 : doPop s (some 1) with
    | error e =>
      rw [hp1] at h
      exact absurd h (by simp)
    | ok p =>
      obtain ⟨cnt, s1⟩ := p
      rw [hp1] at h
      simp only [Except.ok.injEq] at h
      cases hp2 : doPop s1 (some (cnt.headD 0)) with
      | error e =>
        rw [hp2] at h
        exact absurd h (by simp)
      | ok p2 =>
        obtain ⟨vs, s2⟩ := p2
        rw [hp2] at h
        simp only [Except.ok.injEq] at h
        subst h
        have hs2 := stackInv_popped s1 s2 _ vs hp2 (stackInv_popped s s1 _ cnt hp1 hi)
        have hrun := ((doPop_ok_fields s1 _ vs s2 hp2).2.2).trans
          ((doPop_ok_fields s _ cnt s1 hp1).2.2)
        refine ⟨⟨add_stack_ne_nil _ _, ?_⟩, fun _ => hrun⟩
        rw [List.length_append, add_stack_count]
        simp [hs2.2]
  rw [if_neg h91] at h
  by_cases h93 : cmd = 93
  · rw [if_pos h93] at h
    split at h
    · rename_i hguard
      rw [del_stack_multi s.stack (by unfold FishStack.stack_count at hguard; omega)] at h
      simp only [Except.ok.injEq] at h
      subst h
      have hlen : 1 < s.stack.stack.length := by
        unfold FishStack.stack_count at hguard
        omega
      have hne2 : (FishStack.mk s.stack.stack.dropLast).stack ≠ [] := by
        have hq : 0 < s.stack.stack.dropLast.length := by
          rw [List.length_dropLast]
          omega
        exact List.length_pos.mp hq
      refine ⟨⟨?_, ?_⟩, fun _ => rfl⟩
      · rw [push_stack]
        exact setActive_ne_nil _ _
      · rw [push_stack, setActive_count _ _ hne2]
        simp [List.length_dropLast, hi.2]
    · rename_i hguard
      rw [del_stack_single s.stack hi.1
        (by unfold FishStack.stack_count at hguard; omega)] at h
      simp only [Except.ok.injEq] at h
      subst h
      refine ⟨⟨setActive_ne_nil _ _, ?_⟩, fun _ => rfl⟩
      rw [setActive_count _ _ hi.1]
      have hpos : 0 < s.stack.stack.length := List.length_pos.mpr hi.1
      unfold FishStack.stack_count at hguard
      simp
      omega
  rw [if_neg h93] at h
  by_cases h111 : cmd = 111
  · rw [if_pos h111] at h
    cases hp : doPop s (some 1) with
    | error e =>
      rw [hp] at h
      exact absurd h (by simp)
    | ok p =>
      obtain ⟨vs, s1⟩ := p
      rw [hp] at h
      simp only [Except.ok.injEq] at h
      have hs1 := stackInv_popped s s1 _ vs hp hi
      have hrun := (doPop_ok_fields s _ vs s1 hp).2.2
      subst h
      exact ⟨hs1, fun _ => hrun⟩
  rw [if_neg h111] at h
  by_cases h110 : cmd = 110
  · rw [if_pos h110] at h
    cases hp : doPop s (some 1) with
    | error e =>
      rw [hp] at h
      exact absurd h (by simp)
    | ok p =>
      obtain ⟨vs, s1⟩ := p
      rw [hp] at h
      simp only [Except.ok.injEq] at h
      have hs1 := stackInv_popped s s1 _ vs hp hi
      have hrun := (doPop_ok_fields s _ vs s1 hp).2.2
      subst h
      exact ⟨hs1, fun _ => hrun⟩
  rw [if_neg h110] at h
  by_cases h105 : cmd = 105
  · rw [if_pos h105] at h
    simp only [Except.ok.injEq] at h
    subst h
    exact ⟨stackInv_push s _ hi, fun _ => rfl⟩
  rw [if_neg h105] at h
  by_cases h38 : cmd = 38
  · rw [if_pos h38] at h
    cases hreg : s.register.getLastD none with
    | none =>
      rw [hreg] at h
      simp only [Except.ok.injEq] at h
      cases hp : doPop s (some 1) with
      | error e =>
        rw [hp] at h
        exact absurd h (by simp)
      | ok p =>
        obtain ⟨vs, s1⟩ := p
        rw [hp] at h
        simp only [Except.ok.injEq] at h
        subst h
        have hs1 := stackInv_popped s s1 _ vs hp hi
        have hrun := (doPop_ok_fields s _ vs s1 hp).2.2
        refine ⟨⟨hs1.1, ?_⟩, fun _ => hrun⟩
        rw [dropLast_append_one_length _ _ (register_ne_nil s1 hs1)]
        exact hs1.2
    | some v =>
      rw [hreg] at h
      simp only [Except.ok.injEq] at h
      subst h
      refine ⟨⟨?_, ?_⟩, fun _ => rfl⟩
      · rw [push_stack]
        exact setActive_ne_nil _ _
      · rw [push_stack, setActive_count _ _ hi.1,
          dropLast_append_one_length _ _ (register_ne_nil s hi)]
        exact hi.2
  rw [if_neg h38] at h
  by_cases h103 : cmd = 103
  · rw [if_pos h103] at h
    cases hp : doPop s (some 2) with
    | error e =>
      rw [hp] at h
      exact absurd h (by simp)
    | ok p =>
      obtain ⟨vs, s1⟩ := p
      rw [hp] at h
      simp only [Except.ok.injEq] at h
      have hs1 := stackInv_popped s s1 _ vs hp hi
      have hrun := (doPop_ok_fields s _ vs s1 hp).2.2
      subst h
      exact ⟨stackInv_push s1 _ hs1, fun _ => hrun⟩
  rw [if_neg h103] at h
  by_cases h112 : cmd = 112
  · rw [if_pos h112] at h
    cases hp : doPop s (some 3) with
    | error e =>
      rw [hp] at h
      exact absurd h (by simp)
    | ok p =>
      obtain ⟨vs, s1⟩ := p
      rw [hp] at h
      simp only [Except.ok.injEq] at h
      have hs1 := stackInv_popped s s1 _ vs hp hi
      have hrun := (doPop_ok_fields s _ vs s1 hp).2.2
      subst h
      exact ⟨hs1, fun _ => hrun⟩
  rw [if_neg h112] at h
  by_cases h59 : cmd = 59
  · rw [if_pos h59] at h
    simp only [Except.ok.injEq] at h
    subst h
    exact ⟨hi, fun hne => absurd h59 hne⟩
  rw [if_neg h59] at h
  by_cases hnoop : cmd = 32 ∨ cmd = 0
  · rw [if_pos hnoop] at h
    simp only [Except.ok.injEq] at h
    subst h
    exact ⟨hi, fun _ => rfl⟩
  rw [if_neg hnoop] at h
  exact absurd h (by simp)

theorem execCmd_ok_fields (cmd : Int) (rnd : Dir) (s s' : FishState)
    (h : execCmd cmd rnd s = .ok s') (hi : stackInv s) :
    stackInv s' ∧ (cmd ≠ 59 → s'.is_running = s.is_running) := by
  unfold execCmd at h
  split_ifs at h with h120
  · simp only [Except.ok.injEq] at h
    subst h
    exact ⟨hi, fun _ => rfl⟩
  · exact execDet_ok_fields cmd s s' h hi

theorem stackInv_step (rnd : Dir) (s s' : FishState) (hi : stackInv s) :
    (step rnd s = .next s' → stackInv s') ∧ (step rnd s = .halt s' → stackInv s') := by
  constructor
  · intro h
    simp only [step] at h
    split_ifs at h with h1 h2
    · simp only [Outcome.next.injEq] at h
      subst h
      exact stackInv_push s _ hi
    · rcases hex : execCmd (getCmd s) rnd s with e | s0 <;> rw [hex] at h
      · simp at h
      · replace h : (if s0.is_running = true then Outcome.next (applyMove s0)
            else Outcome.halt s0) = Outcome.next s' := h
        split_ifs at h with h3
        all_goals simp at h
        all_goals subst h
        all_goals exact (execCmd_ok_fields _ rnd s s0 hex hi).1
  · intro h
    simp only [step] at h
    split_ifs at h with h1 h2
    all_goals try simp at h
    all_goals rcases hex : execCmd (getCmd s) rnd s with e | s0 <;> rw [hex] at h
    · simp at h
    · replace h : (if s0.is_running = true then Outcome.next (applyMove s0)
          else Outcome.halt s0) = Outcome.halt s' := h
      split_ifs at h with h3
      all_goals simp at h
      all_goals subst h
      all_goals exact (execCmd_ok_fields _ rnd s s0 hex hi).1

/-- C5: the frames/registers bookkeeping invariant — after initialization
and after every successfully executed cycle the stack of stacks is
non-empty and there is exactly one register slot per frame; `]` on the only
frame empties that frame and its register in place without removing them;
`[` adds exactly one frame together with exactly one fresh register slot. -/
theorem C5_frames_invariant :
    (∀ src inp stk, stackInv (initFish src inp stk)) ∧
    (∀ rnd s s', stackInv s →
       (step rnd s = .next s' ∨ step rnd s = .halt s') → stackInv s') ∧
    (∀ rnd s s', s.stack.stack.length = 1 → execCmd 93 rnd s = .ok s' →
       s'.stack.stack = [[]] ∧ s'.register = [none]) ∧
    (∀ rnd s s', stackInv s → execCmd 91 rnd s = .ok s' →
       s'.stack.stack.length = s.stack.stack.length + 1 ∧
       s'.register.length = s.register.length + 1) := by
  refine ⟨?_, ?_, ?_, ?_⟩
  · intro src inp stk
    refine ⟨add_stack_ne_nil _ _, ?_⟩
    show ([none] : List (Option ℚ)).length = ((FishStack.mk []).add_stack stk).stack.length
    rw [add_stack_count]
    rfl
  · intro rnd s s' hi hor
    rcases hor with h | h
    · exact (stackInv_step rnd s s' hi).1 h
    · exact (stackInv_step rnd s s' hi).2 h
  · intro rnd s s' hlen hex
    have hne : s.stack.stack ≠ [] := by
      intro hc
      rw [hc] at hlen
      simp at hlen
    have h93 : execDet 93 s = .ok s' := by
      rw [← hex]
      unfold execCmd
      norm_num
    unfold execDet at h93
    norm_num at h93
    rw [if_neg (by unfold FishStack.stack_count; omega)] at h93
    rw [del_stack_single s.stack hne (by omega)] at h93
    simp only [Except.ok.injEq] at h93
    subst h93
    constructor
    · show (s.stack.setActive []).stack = [[]]
      rw [setActive_stack]
      obtain ⟨a, ha⟩ := List.length_eq_one.mp hlen
      rw [ha]
      rfl
    · rfl
  · intro rnd s s' hi hex
    have h91 : execDet 91 s = .ok s' := by
      rw [← hex]
      unfold execCmd
      norm_num
    unfold execDet at h91
    norm_num at h91
    cases hp1 : doPop s (some 1) with
    | error e =>
      rw [hp1] at h91
      exact absurd h91 (by simp)
    | ok p =>
      obtain ⟨cnt, s1⟩ := p
      rw [hp1] at h91
      simp only [Except.ok.injEq] at h91
      cases hp2 : doPop s1 (some (cnt.head?.getD 0)) with
      | error e =>
        rw [hp2] at h91
        exact absurd h91 (by simp)
      | ok p2 =>
        obtain ⟨vs, s2⟩ := p2
        rw [hp2] at h91
        simp only [Except.ok.injEq] at h91
        subst h91
        obtain ⟨⟨r1, hr1⟩, hreg1, -⟩ := doPop_ok_fields s _ cnt s1 hp1
        obtain ⟨⟨r2, hr2⟩, hreg2, -⟩ := doPop_ok_fields s1 _ vs s2 hp2
        constructor
        · show (s2.stack.add_stack vs).stack.length = s.stack.stack.length + 1
          rw [add_stack_count, hr2,
            setActive_count _ _ (by rw [hr1]; exact setActive_ne_nil _ _), hr1,
            setActive_count _ _ hi.1]
        · show (s2.register ++ [none]).length = s.register.length + 1
          rw [List.length_append, hreg2, hreg1]
          rfl


/-- C5 witness: on the fresh single-frame state of the empty program,
executing `]` (code point 93) leaves exactly one empty frame and one empty
register slot. -/
theorem C5_witness :
    (initFish ("") [] []).stack.stack = [[]] ∧ (initFish ("") [] []).register = [none] :=
  C5_frames_invariant.2.2.1 Dir.right (initFish ("") [] []) (initFish ("") [] [])
    (by decide) (by decide)

/-- C3: halting is a signal distinct from every runtime error.  A cycle of
a live, invariant-respecting state yields the halt signal exactly when it
executes the `;` instruction (code point 59, not captured by parse mode);
the run loop's clean outcome (`done`, carrying the accumulated output) is a
different constructor from the error outcome (`fail`); and concretely `;`
completes with output while insufficient-stack, division-by-zero and
unrecognized-instruction programs abort with their respective errors. -/
theorem C3_halt_vs_error :
    (∀ rnd s s', stackInv s → s.is_running = true → step rnd s = .halt s' →
       captures s = false ∧ getCmd s = 59) ∧
    (∀ rnd s, captures s = false → getCmd s = 59 →
       step rnd s = .halt { s with is_running := false }) ∧
    (∀ out fs e, RunResult.done out fs ≠ RunResult.fail e) ∧
    resultOut (runFish (";") 5) = some [] ∧
    resultErr (runFish ("~") 5) = some .insufficientStack ∧
    resultErr (runFish ("00,") 5) = some .divByZero ∧
    resultErr (runFish ("q") 5) = some .invalidInstr := by
  refine ⟨?_, ?_, ?_, by decide, by decide, by decide, by decide⟩
  · intro rnd s s' hi hrun h
    by_cases hcap : captures s = true
    · simp [step, hcap] at h
    · have hcap' : captures s = false := by simpa using hcap
      refine ⟨hcap', ?_⟩
      simp only [step, hcap', Bool.false_eq_true, if_false] at h
      split_ifs at h with hmem
      · rcases hex : execCmd (getCmd s) rnd s with e | s0 <;> rw [hex] at h
        · simp at h
        · replace h : (if s0.is_running = true then Outcome.next (applyMove s0)
              else Outcome.halt s0) = Outcome.halt s' := h
          split_ifs at h with h3
          by_contra hne
          have hpres := (execCmd_ok_fields (getCmd s) rnd s s0 hex hi).2 hne
          exact h3 (hpres.trans hrun)
  · intro rnd s hcap hcmd
    have hv : getCmd s ∈ validChars := by
      rw [hcmd]
      decide
    have hed : execCmd (getCmd s) rnd s = .ok { s with is_running := false } := by
      rw [hcmd]
      unfold execCmd
      norm_num
      unfold execDet
      norm_num
    simp only [step, hcap, Bool.false_eq_true, if_false, if_pos hv, hed]
  · intro out fs e hq
    cases hq

/-- C3 witness: a cycle of the fresh `";"` state halts, with the halt
signal carrying the (empty) accumulated output through the run loop. -/
theorem C3_witness :
    step Dir.right (initFish (";") [] []) =
      .halt { initFish (";") [] [] with is_running := false } :=
  C3_halt_vs_error.2.1 Dir.right (initFish (";") [] []) (by decide) (by decide)
